import Mathlib

/-!
Verification of the spotify-covert-channel message transcoding core.

Shallow embedding of `src/sender.py`, `src/receiver.py` and `src/models.py`.
Python strings are modelled as `List Char`; machine text encoding is modelled
explicitly (`utf8Encode` / `utf8Decode`); crashes (uncaught `IndexError`) are
modelled as `Option.none`; raised application exceptions are modelled with
`Except` and the error enumeration of spec section 7.
-/

/-- The whitespace class of Python `str.split()` / `str.strip()` with no
argument (CPython Py_UNICODE_ISSPACE): tab through carriage return, the
file/group/record/unit separators U+001C-U+001F, space, next line U+0085,
no-break space U+00A0, ogham space mark U+1680, the U+2000-U+200A spaces,
line separator U+2028, paragraph separator U+2029, narrow no-break space
U+202F, medium mathematical space U+205F, ideographic space U+3000. -/
def isSpace (c : Char) : Bool :=
  (9 ≤ c.toNat && c.toNat ≤ 13) || (28 ≤ c.toNat && c.toNat ≤ 31) ||
  c.toNat = 32 || c.toNat = 133 || c.toNat = 160 || c.toNat = 5760 ||
  (8192 ≤ c.toNat && c.toNat ≤ 8202) || c.toNat = 8232 || c.toNat = 8233 ||
  c.toNat = 8239 || c.toNat = 8287 || c.toNat = 12288

/-- ASCII whitespace, the narrower class skipped by `bytes.fromhex`
(CPython Py_ISSPACE): space, tab, newline, vertical tab, form feed,
carriage return. -/
def isAsciiSpace (c : Char) : Bool :=
  c = ' ' || c = Char.ofNat 9 || c = Char.ofNat 10 || c = Char.ofNat 11 ||
  c = Char.ofNat 12 || c = Char.ofNat 13

/-- The fixed punctuation set stripped by the schemes, the Python literal
written in sender.py line 64 and receiver.py line 109: period, comma,
exclamation mark, question mark, semicolon, double quote, apostrophe. -/
def isPunct (c : Char) : Bool :=
  c = '.' || c = ',' || c = '!' || c = '?' || c = ';' ||
  c = Char.ofNat 34 || c = Char.ofNat 39

/-- Model of Python `str.lower()` on the basic latin range. -/
def lowerList (l : List Char) : List Char :=
  l.map Char.toLower

/-- Model of Python `str.strip(chars)`: remove the leading and trailing run
of characters satisfying `p`. -/
def stripBy (p : Char → Bool) (l : List Char) : List Char :=
  (((l.dropWhile p).reverse.dropWhile p).reverse)

/-- Model of `word.strip('.,!?;"\x27')`. -/
def stripPunct (l : List Char) : List Char :=
  stripBy isPunct l

/-- Model of `word.strip()` (whitespace strip, no argument). -/
def stripWsBoth (l : List Char) : List Char :=
  stripBy isSpace l

/-- Fuel-indexed splitting worker: split on runs of whitespace, discard
empty fragments. The fuel only bounds the recursion depth; with fuel at
least the list length it never runs out (see `splitWsF_congr`). -/
def splitWsF : Nat → List Char → List (List Char)
  | _, [] => []
  | 0, _ :: _ => []
  | fuel + 1, c :: rest =>
    if isSpace c then splitWsF fuel rest
    else (c :: rest.takeWhile (fun x => !isSpace x)) ::
      splitWsF fuel (rest.dropWhile (fun x => !isSpace x))

/-- Model of Python `str.split()` with no separator: split on runs of
whitespace, discarding empty fragments. -/
def splitWs (l : List Char) : List (List Char) :=
  splitWsF l.length l

/-- Model of `" ".join(words)`. -/
def joinWords : List (List Char) → List Char
  | [] => []
  | [w] => w
  | w :: ws => w ++ ' ' :: joinWords ws

/-- The leading whitespace-separated token of a display name, when one
exists (`name.split()[0]` succeeds exactly when this is `some`). -/
def leadingWord (name : List Char) : Option (List Char) :=
  (splitWs name).head?

/-- Lowercase hex digit for a nibble, as produced by Python `bytes.hex()`. -/
def hexDigit (n : Nat) : Char :=
  if n < 10 then Char.ofNat (48 + n) else Char.ofNat (87 + n)

/-- Hex digit value of a character, accepting the digits, lowercase and
uppercase letters that `bytes.fromhex` accepts. -/
def hexVal? (c : Char) : Option Nat :=
  if 48 ≤ c.toNat ∧ c.toNat ≤ 57 then some (c.toNat - 48)
  else if 97 ≤ c.toNat ∧ c.toNat ≤ 102 then some (c.toNat - 87)
  else if 65 ≤ c.toNat ∧ c.toNat ≤ 70 then some (c.toNat - 55)
  else none

/-- Two-character lowercase hex rendering of one byte. -/
def byteToHex (b : Nat) : List Char :=
  [hexDigit (b / 16), hexDigit (b % 16)]

/-- Model of `bytes(bs).hex()`: the concatenated two-digit hex renderings. -/
def hexOfBytes (bs : List Nat) : List Char :=
  (bs.map byteToHex).flatten

/-- Model of `bytes.fromhex`: ASCII whitespace may precede or follow any
byte, each byte is two adjacent hex digits, anything else is a parse
error. -/
def fromHex? : List Char → Option (List Nat)
  | [] => some []
  | c :: rest =>
    if isAsciiSpace c then fromHex? rest
    else
      match rest with
      | [] => none
      | c2 :: rest2 =>
        match hexVal? c, hexVal? c2 with
        | some d1, some d2 => (fromHex? rest2).map (fun bs => (d1 * 16 + d2) :: bs)
        | _, _ => none

/-- Model of the slicing `[hex_message[i:i+2] for i in range(0, len(hex_message), 2)]`
in sender.py line 121: consecutive chunks of two characters (a trailing
odd character forms a one-character chunk). -/
def toPairs : List Char → List (List Char)
  | [] => []
  | [c] => [[c]]
  | c1 :: c2 :: rest => [c1, c2] :: toPairs rest

/-- UTF-8 encoding of one unicode scalar value (given as a `Char`, whose
validity invariant excludes surrogates and values above 0x10FFFF). -/
def utf8EncodeChar (c : Char) : List Nat :=
  let n := c.toNat
  if n < 128 then [n]
  else if n < 2048 then [192 + n / 64, 128 + n % 64]
  else if n < 65536 then [224 + n / 4096, 128 + (n / 64) % 64, 128 + n % 64]
  else [240 + n / 262144, 128 + (n / 4096) % 64, 128 + (n / 64) % 64, 128 + n % 64]

/-- Model of Python `str.encode("utf-8")` on a text given as a `Char` list. -/
def utf8Encode (m : List Char) : List Nat :=
  (m.map utf8EncodeChar).flatten

/-- Continuation handling for a two-byte UTF-8 sequence with lead byte `b`
(already known to lie in `[194, 224)`): the next byte must be a
continuation byte; `rec` is the decoding of the input after the sequence. -/
def utf8Dec2 (b : Nat) (l : List Nat) (rec : Option (List Char)) : Option (List Char) :=
  match l with
  | b1 :: _ =>
    if 128 ≤ b1 ∧ b1 < 192 then
      rec.map (fun cs => Char.ofNat ((b - 192) * 64 + (b1 - 128)) :: cs)
    else none
  | [] => none

/-- Continuation handling for a three-byte UTF-8 sequence with lead byte
`b` in `[224, 240)`; the first continuation range excludes overlong forms
(lead 224) and surrogates (lead 237), as CPython's strict decoder does. -/
def utf8Dec3 (b : Nat) (l : List Nat) (rec : Option (List Char)) : Option (List Char) :=
  match l with
  | b1 :: b2 :: _ =>
    if (if b = 224 then 160 ≤ b1 ∧ b1 < 192
        else if b = 237 then 128 ≤ b1 ∧ b1 < 160
        else 128 ≤ b1 ∧ b1 < 192) ∧ 128 ≤ b2 ∧ b2 < 192 then
      rec.map (fun cs => Char.ofNat ((b - 224) * 4096 + (b1 - 128) * 64 + (b2 - 128)) :: cs)
    else none
  | _ => none

/-- Continuation handling for a four-byte UTF-8 sequence with lead byte
`b` in `[240, 245)`; the first continuation range excludes overlong forms
(lead 240) and values above 0x10FFFF (lead 244). -/
def utf8Dec4 (b : Nat) (l : List Nat) (rec : Option (List Char)) : Option (List Char) :=
  match l with
  | b1 :: b2 :: b3 :: _ =>
    if (if b = 240 then 144 ≤ b1 ∧ b1 < 192
        else if b = 244 then 128 ≤ b1 ∧ b1 < 144
        else 128 ≤ b1 ∧ b1 < 192) ∧ (128 ≤ b2 ∧ b2 < 192) ∧ (128 ≤ b3 ∧ b3 < 192) then
      rec.map (fun cs =>
        Char.ofNat ((b - 240) * 262144 + (b1 - 128) * 4096 + (b2 - 128) * 64 + (b3 - 128)) :: cs)
    else none
  | _ => none

/-- Fuel-indexed strict UTF-8 decoding worker; the fuel only bounds the
recursion depth and with fuel at least the list length it never runs out
(see `utf8DecodeF_congr`). -/
def utf8DecodeF : Nat → List Nat → Option (List Char)
  | _, [] => some []
  | 0, _ :: _ => none
  | fuel + 1, b :: l =>
    if b < 128 then (utf8DecodeF fuel l).map (fun cs => Char.ofNat b :: cs)
    else if b < 194 then none
    else if b < 224 then utf8Dec2 b l (utf8DecodeF fuel (l.drop 1))
    else if b < 240 then utf8Dec3 b l (utf8DecodeF fuel (l.drop 2))
    else if b < 245 then utf8Dec4 b l (utf8DecodeF fuel (l.drop 3))
    else none

/-- Model of Python `bytes.decode("utf-8")` in strict mode: rejects
truncated sequences, stray continuation bytes, overlong forms, surrogates
and values above 0x10FFFF, exactly as CPython's strict UTF-8 decoder does. -/
def utf8Decode (l : List Nat) : Option (List Char) :=
  utf8DecodeF l.length l

/-- The value entity of models.py: a track with its opaque identifier,
display name and external URL. -/
structure Song where
  track_id : List Char
  name : List Char
  spotify_url : List Char
deriving DecidableEq

/-- Encoding-side failure kinds of spec section 7 (raised as `Exception`
in sender.py lines 108 and 139, naming the offending word or byte). -/
inductive EncodeError
  | ResolutionFailure (fragment : List Char)
deriving DecidableEq

/-- Decoding-side failure kinds of spec section 7 (raised as `Exception`
in receiver.py lines 129 and 143). -/
inductive DecodeError
  | TruncatedIdentifier (track_id : List Char) (first_index second_index : Nat)
  | MalformedPayload (hex : List Char)
deriving DecidableEq

/-- Decoding loop of receiver.py lines 103-111: collect one stripped
leading word per Song, skipping Songs whose name is empty; `none` models
the uncaught `IndexError` of `song.name.split()[0]` when a non-empty name
contains only whitespace. -/
def firstWords : List Song → Option (List (List Char))
  | [] => some []
  | song :: rest =>
    if song.name = [] then firstWords rest
    else
      match leadingWord song.name with
      | none => none
      | some w0 =>
        let fw := stripPunct w0
        (firstWords rest).map (fun ws => if fw = [] then ws else fw :: ws)

/-- Model of `decode_first_word_encoding` (receiver.py lines 101-113). -/
def decode_first_word_encoding (songs : List Song) : Option (List Char) :=
  (firstWords songs).map joinWords

/-- Per-Song hex extraction of the specification: for each Song in order,
the character of `track_id` at `first_index` followed by the character at
`second_index`. -/
def extractedHex (songs : List Song) (first_index second_index : Nat) : List Char :=
  (songs.map (fun s =>
    (s.track_id.get? first_index).toList ++ (s.track_id.get? second_index).toList)).flatten

/-- Accumulation loop of receiver.py lines 124-137: for each Song check
the track identifier length, then append its two indexed characters to the
running hex string; a too-short identifier aborts with the truncation
error. -/
def hexOfSongs : List Song → Nat → Nat → Except DecodeError (List Char)
  | [], _, _ => .ok []
  | song :: rest, first_index, second_index =>
    if song.track_id.length ≤ max first_index second_index then
      .error (.TruncatedIdentifier song.track_id first_index second_index)
    else
      match hexOfSongs rest first_index second_index with
      | .error e => .error e
      | .ok hx =>
        .ok (((song.track_id.get? first_index).toList ++
          (song.track_id.get? second_index).toList) ++ hx)

/-- Payload interpretation of receiver.py lines 139-147: parse the
accumulated string as hex bytes and decode those bytes as UTF-8; either
failure (`ValueError` in Python) is converted to the malformed-payload
error carrying the offending hex string. -/
def parsePayload (hex : List Char) : Except DecodeError (List Char) :=
  match fromHex? hex with
  | none => .error (.MalformedPayload hex)
  | some bs =>
    match utf8Decode bs with
    | none => .error (.MalformedPayload hex)
    | some m => .ok m

/-- Model of `decode_hex_encoding` (receiver.py lines 116-147). -/
def decode_hex_encoding (songs : List Song) (first_index second_index : Nat) :
    Except DecodeError (List Char) :=
  match hexOfSongs songs first_index second_index with
  | .error e => .error e
  | .ok hx => parsePayload hx

/-- A raw track record as returned by the catalog search collaborator
(`sp.search` result items: id, name, external URL). -/
structure RawTrack where
  id : List Char
  name : List Char
  url : List Char
deriving DecidableEq

/-- The persistent word-to-candidates cache of sender.py (.cache file):
a mapping from normalized word to the stored candidate Song records. -/
abbrev Cache := List (List Char × List Song)

/-- Normalization of sender.py line 64: `word.strip('.,!?;"\x27').split()[0]`.
The result is the resolver's cache key; `none` models the `IndexError`
when the stripped word has no whitespace-separated token. -/
def cacheKey (word : List Char) : Option (List Char) :=
  (splitWs (stripPunct word)).head?

/-- The comparison key effectively used when matching search results
(sender.py line 82): the cache key of the query word, lowercased by the
trailing `word.lower()` of the filter condition. -/
def matchKey (word : List Char) : Option (List Char) :=
  (cacheKey word).map lowerList

/-- The quoted query string `f'"{word}"'` passed to the search collaborator. -/
def quoteWord (word : List Char) : List Char :=
  Char.ofNat 34 :: word ++ [Char.ofNat 34]

/-- Model of Python `dict.get` on the cache mapping. -/
def lookupCache : Cache → List Char → Option (List Song)
  | [], _ => none
  | (k, v) :: rest, w => if k = w then some v else lookupCache rest w

/-- Model of Python `cache[word] = value` (replace an existing key,
otherwise add the key). -/
def insertCache : Cache → List Char → List Song → Cache
  | [], w, v => [(w, v)]
  | (k, kv) :: rest, w, v =>
    if k = w then (w, v) :: rest else (k, kv) :: insertCache rest w v

/-- Search-result filtering of sender.py lines 80-82: keep the results
whose display name's leading token, punctuation-stripped and lowercased,
equals the lowercased query word; `none` models the `IndexError` of
`song['name'].split()[0]` on a result whose name has no token. -/
def filterMatches (word : List Char) : List RawTrack → Option (List Song)
  | [] => some []
  | t :: ts =>
    match leadingWord t.name with
    | none => none
    | some w0 =>
      if lowerList (stripPunct w0) = lowerList word then
        (filterMatches word ts).map
          (fun l => { track_id := t.id, name := t.name, spotify_url := t.url } :: l)
      else filterMatches word ts

/-- Model of `get_song_from_first_word` (sender.py lines 62-95), with the
search collaborator, the uniform-random choice and the cache store passed
explicitly. The result carries the possibly-found Song, the cache after
the call, and the number of search-collaborator calls issued (0 or 1);
the outer `none` models an uncaught `IndexError`. -/
def get_song_from_first_word (search : List Char → Option (List RawTrack))
    (choose : List Song → Option Song) (word0 : List Char) (cache : Cache) :
    Option (Option Song × Cache × Nat) :=
  match cacheKey word0 with
  | none => none
  | some word =>
    match lookupCache cache word with
    | some (r :: rs) =>
      match choose (r :: rs) with
      | some s => some (some s, cache, 0)
      | none => none
    | some [] | none =>
      match search (quoteWord word) with
      | none => some (none, cache, 1)
      | some items =>
        match filterMatches word items with
        | none => none
        | some [] => some (none, cache, 1)
        | some (m :: ms) =>
          match choose (m :: ms) with
          | some s => some (some s, insertCache cache word (m :: ms), 1)
          | none => none

/-- Encoding loop of sender.py lines 100-110: resolve each word of the
message in order through the stateful resolver; a word with no resolvable
Song raises the resolution failure naming the word; `none` models an
uncaught `IndexError` inside the resolver. -/
def encodeWords (resolver : List Char → Cache → Option (Option Song × Cache × Nat)) :
    List (List Char) → Cache → Option (Except EncodeError (List Song) × Cache)
  | [], cache => some (.ok [], cache)
  | w :: ws, cache =>
    match resolver (stripWsBoth w) cache with
    | none => none
    | some (none, cache2, _) => some (.error (.ResolutionFailure w), cache2)
    | some (some s, cache2, _) =>
      match encodeWords resolver ws cache2 with
      | none => none
      | some (.error e, cache3) => some (.error e, cache3)
      | some (.ok songs, cache3) => some (.ok (s :: songs), cache3)

/-- Model of `get_first_word_encoding_songs` (sender.py lines 98-110),
parameterized by the word resolver (`get_song_from_first_word` applied to
its collaborators, or an abstract resolver as in spec section 4.1). -/
def get_first_word_encoding_songs
    (resolver : List Char → Cache → Option (Option Song × Cache × Nat))
    (message : List Char) (cache : Cache) :
    Option (Except EncodeError (List Song) × Cache) :=
  encodeWords resolver (splitWs message) cache

/-- Byte loop of sender.py lines 121-139: for each two-character hex byte
ask the dataset matcher (spec section 4.4 `TrackIndexMatcher.find`) for a
Song; an unmatched byte raises the resolution failure naming the byte. -/
def encodeBytes (matcher : List Char → Nat → Nat → Option Song)
    (first_index second_index : Nat) : List (List Char) → Except EncodeError (List Song)
  | [] => .ok []
  | byte :: rest =>
    match matcher byte first_index second_index with
    | none => .error (.ResolutionFailure byte)
    | some s => (encodeBytes matcher first_index second_index rest).map (fun songs => s :: songs)

/-- Model of `get_hex_encoding_songs` (sender.py lines 113-141): UTF-8
encode the message, render it as a lowercase hex string, slice the string
into two-character bytes, and resolve each byte through the matcher. -/
def get_hex_encoding_songs (matcher : List Char → Nat → Nat → Option Song)
    (message : List Char) (first_index second_index : Nat) :
    Except EncodeError (List Song) :=
  encodeBytes matcher first_index second_index (toPairs (hexOfBytes (utf8Encode message)))

theorem splitWsF_congr : ∀ (fuel fuel' : Nat) (l : List Char), l.length ≤ fuel →
    l.length ≤ fuel' → splitWsF fuel l = splitWsF fuel' l
  | _, _, [], _, _ => by rw [splitWsF, splitWsF]
  | fuel + 1, fuel' + 1, c :: rest, h, h' => by
    rw [splitWsF, splitWsF]
    have hd := (List.dropWhile_sublist (l := rest) (p := fun x => !isSpace x)).length_le
    simp only [List.length_cons] at h h'
    rw [splitWsF_congr fuel fuel' rest (by omega) (by omega),
      splitWsF_congr fuel fuel' (rest.dropWhile (fun x => !isSpace x)) (by omega) (by omega)]
  | 0, _, _ :: _, h, _ => by simp at h
  | _ + 1, 0, _ :: _, _, h' => by simp at h'

theorem splitWs_cons_space (c : Char) (rest : List Char) (h : isSpace c = true) :
    splitWs (c :: rest) = splitWs rest := by
  show splitWsF (c :: rest).length (c :: rest) = _
  rw [List.length_cons, splitWsF, if_pos h]
  exact splitWsF_congr _ _ _ (by omega) (by omega)

theorem splitWs_cons_word (c : Char) (rest : List Char) (h : isSpace c = false) :
    splitWs (c :: rest) = (c :: rest.takeWhile (fun x => !isSpace x)) ::
      splitWs (rest.dropWhile (fun x => !isSpace x)) := by
  show splitWsF (c :: rest).length (c :: rest) = _
  rw [List.length_cons, splitWsF, if_neg (by simp [h])]
  have hd := (List.dropWhile_sublist (l := rest) (p := fun x => !isSpace x)).length_le
  rw [splitWsF_congr _ _ _ (by omega) (le_refl _)]
  rfl

theorem utf8DecodeF_congr : ∀ (fuel fuel' : Nat) (l : List Nat), l.length ≤ fuel →
    l.length ≤ fuel' → utf8DecodeF fuel l = utf8DecodeF fuel' l
  | _, _, [], _, _ => by rw [utf8DecodeF, utf8DecodeF]
  | fuel + 1, fuel' + 1, b :: l, h, h' => by
    rw [utf8DecodeF, utf8DecodeF]
    simp only [List.length_cons] at h h'
    rw [utf8DecodeF_congr fuel fuel' l (by omega) (by omega),
      utf8DecodeF_congr fuel fuel' (l.drop 1) (by simp; omega) (by simp; omega),
      utf8DecodeF_congr fuel fuel' (l.drop 2) (by simp; omega) (by simp; omega),
      utf8DecodeF_congr fuel fuel' (l.drop 3) (by simp; omega) (by simp; omega)]
  | 0, _, _ :: _, h, _ => by simp at h
  | _ + 1, 0, _ :: _, _, h' => by simp at h'

theorem charOfNat_toNat (c : Char) : Char.ofNat c.toNat = c := by
  have hv : c.toNat.isValidChar := c.valid
  unfold Char.ofNat
  rw [dif_pos hv]
  apply Char.eq_of_val_eq
  apply UInt32.eq_of_toBitVec_eq
  apply BitVec.eq_of_toNat_eq
  simp [Char.ofNatAux, Char.toNat, UInt32.toNat]

theorem utf8EncodeChar_lt (c : Char) : ∀ b ∈ utf8EncodeChar c, b < 256 := by
  have hv : c.toNat < 55296 ∨ (57343 < c.toNat ∧ c.toNat < 1114112) := c.valid
  intro b hb
  simp only [utf8EncodeChar] at hb
  split at hb
  · simp at hb; omega
  · split at hb
    · simp at hb; rcases hb with h | h <;> omega
    · split at hb
      · simp at hb; rcases hb with h | h | h <;> omega
      · simp at hb; rcases hb with h | h | h | h <;> omega

theorem utf8Decode_one (b : Nat) (l : List Nat) (h : b < 128) :
    utf8Decode (b :: l) = (utf8Decode l).map (fun cs => Char.ofNat b :: cs) := by
  show utf8DecodeF (b :: l).length (b :: l) = _
  rw [List.length_cons, utf8DecodeF, if_pos h]
  rfl

theorem utf8Decode_two (b b1 : Nat) (l : List Nat) (hb : 194 ≤ b) (hb' : b < 224)
    (h1 : 128 ≤ b1) (h1' : b1 < 192) :
    utf8Decode (b :: b1 :: l) =
      (utf8Decode l).map (fun cs => Char.ofNat ((b - 192) * 64 + (b1 - 128)) :: cs) := by
  show utf8DecodeF (b :: b1 :: l).length (b :: b1 :: l) = _
  rw [List.length_cons, List.length_cons, utf8DecodeF,
    if_neg (by omega), if_neg (by omega), if_pos (by omega), utf8Dec2]
  simp only [List.drop_succ_cons, List.drop_zero]
  rw [if_pos (by omega), utf8DecodeF_congr (l.length + 1) l.length l (by omega) (by omega)]
  rfl

theorem utf8Decode_three (b b1 b2 : Nat) (l : List Nat) (hb : 224 ≤ b) (hb' : b < 240)
    (h1 : 128 ≤ b1) (h1' : b1 < 192) (he0 : b = 224 → 160 ≤ b1) (hed : b = 237 → b1 < 160)
    (h2 : 128 ≤ b2) (h2' : b2 < 192) :
    utf8Decode (b :: b1 :: b2 :: l) =
      (utf8Decode l).map
        (fun cs => Char.ofNat ((b - 224) * 4096 + (b1 - 128) * 64 + (b2 - 128)) :: cs) := by
  show utf8DecodeF (b :: b1 :: b2 :: l).length (b :: b1 :: b2 :: l) = _
  rw [List.length_cons, List.length_cons, List.length_cons, utf8DecodeF,
    if_neg (by omega), if_neg (by omega), if_neg (by omega), if_pos (by omega), utf8Dec3]
  simp only [List.drop_succ_cons, List.drop_zero]
  rw [if_pos ?cond, utf8DecodeF_congr (l.length + 2) l.length l (by omega) (by omega)]
  rfl
  case cond =>
    refine ⟨?_, by omega, by omega⟩
    split
    · rename_i h; exact ⟨he0 h, by omega⟩
    · split
      · rename_i h; exact ⟨by omega, hed h⟩
      · exact ⟨by omega, by omega⟩

theorem utf8Decode_four (b b1 b2 b3 : Nat) (l : List Nat) (hb : 240 ≤ b) (hb' : b < 245)
    (h1 : 128 ≤ b1) (h1' : b1 < 192) (he0 : b = 240 → 144 ≤ b1) (hed : b = 244 → b1 < 144)
    (h2 : 128 ≤ b2) (h2' : b2 < 192) (h3 : 128 ≤ b3) (h3' : b3 < 192) :
    utf8Decode (b :: b1 :: b2 :: b3 :: l) =
      (utf8Decode l).map
        (fun cs =>
          Char.ofNat ((b - 240) * 262144 + (b1 - 128) * 4096 + (b2 - 128) * 64 + (b3 - 128)) :: cs) := by
  show utf8DecodeF (b :: b1 :: b2 :: b3 :: l).length (b :: b1 :: b2 :: b3 :: l) = _
  rw [List.length_cons, List.length_cons, List.length_cons, List.length_cons, utf8DecodeF,
    if_neg (by omega), if_neg (by omega), if_neg (by omega), if_neg (by omega),
    if_pos (by omega), utf8Dec4]
  simp only [List.drop_succ_cons, List.drop_zero]
  rw [if_pos ?cond, utf8DecodeF_congr (l.length + 3) l.length l (by omega) (by omega)]
  rfl
  case cond =>
    refine ⟨?_, ⟨by omega, by omega⟩, by omega, by omega⟩
    split
    · rename_i h; exact ⟨he0 h, by omega⟩
    · split
      · rename_i h; exact ⟨by omega, hed h⟩
      · exact ⟨by omega, by omega⟩

theorem utf8Decode_encodeChar (c : Char) (rest : List Nat) :
    utf8Decode (utf8EncodeChar c ++ rest) = (utf8Decode rest).map (fun cs => c :: cs) := by
  have hv : c.toNat < 55296 ∨ (57343 < c.toNat ∧ c.toNat < 1114112) := c.valid
  by_cases h1 : c.toNat < 128
  · have he : utf8EncodeChar c = [c.toNat] := by simp [utf8EncodeChar, h1]
    rw [he, List.cons_append, List.nil_append, utf8Decode_one _ _ h1, charOfNat_toNat]
  · by_cases h2 : c.toNat < 2048
    · have he : utf8EncodeChar c = [192 + c.toNat / 64, 128 + c.toNat % 64] := by
        simp [utf8EncodeChar, h1, h2]
      rw [he]
      simp only [List.cons_append, List.nil_append]
      rw [utf8Decode_two _ _ _ (by omega) (by omega) (by omega) (by omega)]
      have hn : (192 + c.toNat / 64 - 192) * 64 + (128 + c.toNat % 64 - 128) = c.toNat := by
        omega
      rw [hn, charOfNat_toNat]
    · by_cases h3 : c.toNat < 65536
      · have he : utf8EncodeChar c =
            [224 + c.toNat / 4096, 128 + (c.toNat / 64) % 64, 128 + c.toNat % 64] := by
          simp [utf8EncodeChar, h1, h2, h3]
        rw [he]
        simp only [List.cons_append, List.nil_append]
        rw [utf8Decode_three _ _ _ _ (by omega) (by omega) (by omega) (by omega)
          (by omega) (by omega) (by omega) (by omega)]
        have hn : (224 + c.toNat / 4096 - 224) * 4096 + (128 + c.toNat / 64 % 64 - 128) * 64 +
            (128 + c.toNat % 64 - 128) = c.toNat := by omega
        rw [hn, charOfNat_toNat]
      · have he : utf8EncodeChar c =
            [240 + c.toNat / 262144, 128 + (c.toNat / 4096) % 64,
             128 + (c.toNat / 64) % 64, 128 + c.toNat % 64] := by
          simp [utf8EncodeChar, h1, h2, h3]
        rw [he]
        simp only [List.cons_append, List.nil_append]
        rw [utf8Decode_four _ _ _ _ _ (by omega) (by omega) (by omega) (by omega)
          (by omega) (by omega) (by omega) (by omega) (by omega) (by omega)]
        have hn : (240 + c.toNat / 262144 - 240) * 262144 +
            (128 + c.toNat / 4096 % 64 - 128) * 4096 +
            (128 + c.toNat / 64 % 64 - 128) * 64 + (128 + c.toNat % 64 - 128) = c.toNat := by
          omega
        rw [hn, charOfNat_toNat]

theorem utf8Decode_utf8Encode (m : List Char) : utf8Decode (utf8Encode m) = some m := by
  induction m with
  | nil => rfl
  | cons c cs ih =>
    have : utf8Encode (c :: cs) = utf8EncodeChar c ++ utf8Encode cs := by
      simp [utf8Encode]
    rw [this, utf8Decode_encodeChar, ih]
    rfl

theorem hexDigit_spec : ∀ d, d < 16 → hexVal? (hexDigit d) = some d ∧ isAsciiSpace (hexDigit d) = false := by
  decide

theorem fromHex?_byteToHex (b : Nat) (hb : b < 256) (rest : List Char) :
    fromHex? (byteToHex b ++ rest) = (fromHex? rest).map (fun bs => b :: bs) := by
  have h1 := hexDigit_spec (b / 16) (by omega)
  have h2 := hexDigit_spec (b % 16) (by omega)
  simp only [byteToHex, List.cons_append, List.nil_append]
  rw [fromHex?, if_neg (by simp [h1.2]), h1.1, h2.1]
  show (fromHex? rest).map (fun bs => (b / 16 * 16 + b % 16) :: bs) = _
  have hb' : b / 16 * 16 + b % 16 = b := by omega
  rw [hb']

theorem fromHex?_hexOfBytes (bs : List Nat) (h : ∀ b ∈ bs, b < 256) :
    fromHex? (hexOfBytes bs) = some bs := by
  induction bs with
  | nil => rfl
  | cons b rest ih =>
    have he : hexOfBytes (b :: rest) = byteToHex b ++ hexOfBytes rest := by
      simp [hexOfBytes]
    rw [he, fromHex?_byteToHex b (h b (by simp)) _,
      ih (fun x hx => h x (by simp [hx]))]
    rfl

theorem flatten_toPairs : ∀ l : List Char, (toPairs l).flatten = l
  | [] => by rw [toPairs]; rfl
  | [c] => by rw [toPairs]; rfl
  | c1 :: c2 :: rest => by
    rw [toPairs]
    simp [flatten_toPairs rest]

theorem toPairs_length_two : ∀ l : List Char, l.length % 2 = 0 →
    ∀ p ∈ toPairs l, p.length = 2
  | [] => by intro _ p hp; rw [toPairs] at hp; cases hp
  | [c] => by intro h; simp at h
  | c1 :: c2 :: rest => by
    intro h p hp
    rw [toPairs] at hp
    rcases List.mem_cons.mp hp with rfl | hp'
    · rfl
    · exact toPairs_length_two rest (by simp at h; omega) p hp'

theorem hexOfBytes_length (bs : List Nat) : (hexOfBytes bs).length = 2 * bs.length := by
  induction bs with
  | nil => rfl
  | cons b rest ih =>
    have he : hexOfBytes (b :: rest) = byteToHex b ++ hexOfBytes rest := by
      simp [hexOfBytes]
    rw [he]
    simp [byteToHex, ih]
    omega

theorem extractedHex_cons (s : Song) (rest : List Song) (i j : Nat) :
    extractedHex (s :: rest) i j =
      ((s.track_id.get? i).toList ++ (s.track_id.get? j).toList) ++ extractedHex rest i j := by
  simp [extractedHex]

theorem hexOfSongs_ok (songs : List Song) (i j : Nat)
    (h : ∀ s ∈ songs, max i j < s.track_id.length) :
    hexOfSongs songs i j = .ok (extractedHex songs i j) := by
  induction songs with
  | nil => rw [hexOfSongs]; simp [extractedHex]
  | cons s rest ih =>
    rw [hexOfSongs, if_neg (by have := h s (by simp); omega),
      ih (fun x hx => h x (by simp [hx])), extractedHex_cons]

theorem hexOfSongs_short (songs : List Song) (i j : Nat)
    (h : ∃ s ∈ songs, s.track_id.length ≤ max i j) :
    ∃ t, hexOfSongs songs i j = .error (.TruncatedIdentifier t i j) ∧
      t.length ≤ max i j := by
  induction songs with
  | nil => simp at h
  | cons s rest ih =>
    by_cases hs : s.track_id.length ≤ max i j
    · exact ⟨s.track_id, by rw [hexOfSongs, if_pos hs], hs⟩
    · have hr : ∃ x ∈ rest, x.track_id.length ≤ max i j := by
        rcases h with ⟨x, hx, hxl⟩
        rcases List.mem_cons.mp hx with rfl | hx'
        · omega
        · exact ⟨x, hx', hxl⟩
      rcases ih hr with ⟨t, ht, htl⟩
      exact ⟨t, by rw [hexOfSongs, if_neg hs, ht], htl⟩

theorem parsePayload_ok (hex : List Char) (bs : List Nat) (m : List Char)
    (h1 : fromHex? hex = some bs) (h2 : utf8Decode bs = some m) :
    parsePayload hex = .ok m := by
  simp [parsePayload, h1, h2]

theorem parsePayload_not_trunc (hex : List Char) (t : List Char) (i j : Nat) :
    parsePayload hex ≠ .error (.TruncatedIdentifier t i j) := by
  unfold parsePayload
  split
  · simp
  · split <;> simp

theorem decode_hex_of_ok (songs : List Song) (i j : Nat) (hx : List Char)
    (h : hexOfSongs songs i j = .ok hx) :
    decode_hex_encoding songs i j = parsePayload hx := by
  simp [decode_hex_encoding, h]

theorem decode_hex_of_error (songs : List Song) (i j : Nat) (e : DecodeError)
    (h : hexOfSongs songs i j = .error e) :
    decode_hex_encoding songs i j = .error e := by
  simp [decode_hex_encoding, h]

/-- C5: for all indices and every Song list whose track identifiers are
long enough, HexScheme decode returns exactly the UTF-8 decoding of the
byte sequence obtained by reading, for each Song in list order, the hex
byte formed from track_id character `first_index` followed by character
`second_index`; byte order corresponds one-to-one to Song order. -/
theorem hex_decode_reads_bytes_in_order (songs : List Song) (i j : Nat)
    (hlen : ∀ s ∈ songs, max i j < s.track_id.length) (bs : List Nat) (m : List Char)
    (hhex : fromHex? (extractedHex songs i j) = some bs)
    (hutf : utf8Decode bs = some m) :
    decode_hex_encoding songs i j = .ok m := by
  rw [decode_hex_of_ok songs i j _ (hexOfSongs_ok songs i j hlen)]
  exact parsePayload_ok _ _ _ hhex hutf

/-- Witness for C5: the spec example with indices collapsed to the front
of the identifiers: tracks with identifiers starting in 48 and 69 decode
to the text Hi at indices 0 and 1. -/
theorem hex_decode_reads_bytes_in_order_witness :
    decode_hex_encoding
      [{ track_id := "48".toList, name := [], spotify_url := [] },
       { track_id := "69".toList, name := [], spotify_url := [] }] 0 1 =
      .ok ("Hi".toList) :=
  hex_decode_reads_bytes_in_order
    [{ track_id := "48".toList, name := [], spotify_url := [] },
     { track_id := "69".toList, name := [], spotify_url := [] }] 0 1
    (by decide) [72, 105] ("Hi".toList) (by decide) (by decide)

/-- C6: HexScheme decode on a list containing a Song whose track_id is
not longer than the larger index fails with a TruncatedIdentifier error,
and never produces such an error when every track_id is long enough. -/
theorem hex_decode_truncated (songs : List Song) (i j : Nat) :
    ((∃ s ∈ songs, s.track_id.length ≤ max i j) →
      ∃ t, decode_hex_encoding songs i j = .error (.TruncatedIdentifier t i j) ∧
        t.length ≤ max i j) ∧
    ((∀ s ∈ songs, max i j < s.track_id.length) →
      ∀ (t : List Char) (i' j' : Nat),
        decode_hex_encoding songs i j ≠ .error (.TruncatedIdentifier t i' j')) := by
  constructor
  · intro h
    rcases hexOfSongs_short songs i j h with ⟨t, ht, htl⟩
    exact ⟨t, decode_hex_of_error songs i j _ ht, htl⟩
  · intro h t i' j'
    rw [decode_hex_of_ok songs i j _ (hexOfSongs_ok songs i j h)]
    exact parsePayload_not_trunc _ _ _ _

/-- Witness for C6 at the default indices 5 and 8: a two-character
identifier triggers the truncation error; a list of long identifiers
never does. -/
theorem hex_decode_truncated_witness :
    (∃ t, decode_hex_encoding
        [{ track_id := "ab".toList, name := [], spotify_url := [] }] 5 8 =
      .error (.TruncatedIdentifier t 5 8) ∧ t.length ≤ max 5 8) ∧
    (∀ (t : List Char) (i' j' : Nat),
      decode_hex_encoding
        [{ track_id := "0123456789".toList, name := [], spotify_url := [] }] 5 8 ≠
        .error (.TruncatedIdentifier t i' j')) :=
  ⟨(hex_decode_truncated
      [{ track_id := "ab".toList, name := [], spotify_url := [] }] 5 8).1 (by decide),
   (hex_decode_truncated
      [{ track_id := "0123456789".toList, name := [], spotify_url := [] }] 5 8).2 (by decide)⟩

/-- C7: with every identifier long enough, a hex-parse failure or a UTF-8
decode failure of the accumulated hex string is reported as a
MalformedPayload error carrying the offending hex string. -/
theorem hex_decode_malformed (songs : List Song) (i j : Nat)
    (hlen : ∀ s ∈ songs, max i j < s.track_id.length)
    (hbad : fromHex? (extractedHex songs i j) = none ∨
      ∃ bs, fromHex? (extractedHex songs i j) = some bs ∧ utf8Decode bs = none) :
    decode_hex_encoding songs i j = .error (.MalformedPayload (extractedHex songs i j)) := by
  rw [decode_hex_of_ok songs i j _ (hexOfSongs_ok songs i j hlen)]
  rcases hbad with h | ⟨bs, h1, h2⟩
  · simp [parsePayload, h]
  · simp [parsePayload, h1, h2]

/-- Witness for C7: an identifier whose selected characters are not hex
digits yields the malformed-payload error carrying the extracted string. -/
theorem hex_decode_malformed_witness :
    decode_hex_encoding [{ track_id := "zz".toList, name := [], spotify_url := [] }] 0 1 =
      .error (.MalformedPayload ("zz".toList)) := by
  have h := hex_decode_malformed
    [{ track_id := "zz".toList, name := [], spotify_url := [] }] 0 1 (by decide)
    (Or.inl (by decide))
  rw [h]
  have he : extractedHex [{ track_id := "zz".toList, name := [], spotify_url := [] }] 0 1 =
      "zz".toList := by decide
  rw [he]

theorem splitWs_ne_nil (l : List Char) (h : ∃ c ∈ l, isSpace c = false) :
    splitWs l ≠ [] := by
  induction l with
  | nil => simp at h
  | cons c rest ih =>
    by_cases hc : isSpace c = true
    · rw [splitWs_cons_space c rest hc]
      apply ih
      rcases h with ⟨x, hx, hxs⟩
      rcases List.mem_cons.mp hx with rfl | hx'
      · rw [hc] at hxs; cases hxs
      · exact ⟨x, hx', hxs⟩
    · rw [splitWs_cons_word c rest (by simpa using hc)]
      simp

theorem firstWords_isSome (songs : List Song)
    (h : ∀ s ∈ songs, s.name = [] ∨ ∃ c ∈ s.name, isSpace c = false) :
    (firstWords songs).isSome := by
  induction songs with
  | nil => rfl
  | cons s rest ih =>
    have ihh := ih (fun x hx => h x (List.mem_cons_of_mem _ hx))
    rw [firstWords]
    by_cases hn : s.name = []
    · rw [if_pos hn]; exact ihh
    · rw [if_neg hn]
      obtain ⟨w0, hw0⟩ : ∃ w0, leadingWord s.name = some w0 := by
        rcases (h s (by simp)) with h' | h'
        · exact absurd h' hn
        · have := splitWs_ne_nil s.name h'
          unfold leadingWord
          cases hh : (splitWs s.name).head? with
          | none => exact absurd (List.head?_eq_none_iff.mp hh) this
          | some w => exact ⟨w, rfl⟩
      rw [hw0]
      cases hfr : firstWords rest with
      | none => rw [hfr] at ihh; simp at ihh
      | some ws => simp [hfr]

/-- C3 counterexample: FirstWordScheme decode is not total; on a Song
whose name is a single space (non-empty, whitespace-only) the decoding
loop crashes with an IndexError (modelled as `none`) instead of
returning a result. -/
theorem first_word_decode_crash_counterexample :
    decode_first_word_encoding [{ track_id := [], name := [' '], spotify_url := [] }] =
      none := by
  decide

/-- C3 amended: FirstWordScheme decode returns the empty string on the
empty list, skips Songs whose name is empty, and never fails on lists in
which every Song name is empty or contains a non-whitespace character; it
crashes (IndexError) only on a non-empty whitespace-only name. -/
theorem first_word_decode_total_amended :
    (decode_first_word_encoding [] = some []) ∧
    (∀ (s : Song) (rest : List Song), s.name = [] →
      decode_first_word_encoding (s :: rest) = decode_first_word_encoding rest) ∧
    (∀ songs : List Song,
      (∀ s ∈ songs, s.name = [] ∨ ∃ c ∈ s.name, isSpace c = false) →
      (decode_first_word_encoding songs).isSome) := by
  refine ⟨rfl, ?_, ?_⟩
  · intro s rest hn
    unfold decode_first_word_encoding
    rw [firstWords, if_pos hn]
  · intro songs h
    have hs := firstWords_isSome songs h
    unfold decode_first_word_encoding
    cases hf : firstWords songs with
    | none => rw [hf] at hs; simp at hs
    | some ws => simp [hf]

/-- Witness for the amended C3: a one-Song list with an ordinary name
decodes successfully, and prepending an empty-named Song is a no-op. -/
theorem first_word_decode_total_amended_witness :
    (decode_first_word_encoding
      [{ track_id := [], name := [], spotify_url := [] },
       { track_id := [], name := "Go Get It".toList, spotify_url := [] }] =
      decode_first_word_encoding
        [{ track_id := [], name := "Go Get It".toList, spotify_url := [] }]) ∧
    (decode_first_word_encoding
      [{ track_id := [], name := "Go Get It".toList, spotify_url := [] }]).isSome :=
  ⟨first_word_decode_total_amended.2.1
      { track_id := [], name := [], spotify_url := [] }
      [{ track_id := [], name := "Go Get It".toList, spotify_url := [] }] rfl,
   first_word_decode_total_amended.2.2
      [{ track_id := [], name := "Go Get It".toList, spotify_url := [] }] (by decide)⟩

theorem char_eq_iff_toNat (c d : Char) : c = d ↔ c.toNat = d.toNat :=
  ⟨fun h => h ▸ rfl, fun h => Char.eq_of_val_eq (UInt32.ext h)⟩

theorem charToNat_ofNat (n : Nat) (h : n < 55296) : (Char.ofNat n).toNat = n := by
  unfold Char.ofNat
  rw [dif_pos (Or.inl h)]
  simp [Char.ofNatAux, Char.toNat, UInt32.toNat]

theorem isSpace_iff (c : Char) : isSpace c = true ↔
    ((9 ≤ c.toNat ∧ c.toNat ≤ 13) ∨ (28 ≤ c.toNat ∧ c.toNat ≤ 31) ∨
      c.toNat = 32 ∨ c.toNat = 133 ∨ c.toNat = 160 ∨ c.toNat = 5760 ∨
      (8192 ≤ c.toNat ∧ c.toNat ≤ 8202) ∨ c.toNat = 8232 ∨ c.toNat = 8233 ∨
      c.toNat = 8239 ∨ c.toNat = 8287 ∨ c.toNat = 12288) := by
  unfold isSpace
  simp only [Bool.or_eq_true, Bool.and_eq_true, decide_eq_true_eq]
  tauto

theorem isSpace_toLower (c : Char) : isSpace (Char.toLower c) = isSpace c := by
  unfold Char.toLower
  show isSpace (if c.toNat ≥ 65 ∧ c.toNat ≤ 90 then Char.ofNat (c.toNat + 32) else c) =
    isSpace c
  split
  · rename_i h
    have h' : 65 ≤ c.toNat ∧ c.toNat ≤ 90 := h
    have h32 : (Char.ofNat (c.toNat + 32)).toNat = c.toNat + 32 :=
      charToNat_ofNat _ (by omega)
    have e1 : isSpace (Char.ofNat (c.toNat + 32)) = false := by
      rw [Bool.eq_false_iff]
      intro hs
      rw [isSpace_iff, h32] at hs
      omega
    have e2 : isSpace c = false := by
      rw [Bool.eq_false_iff]
      intro hs
      rw [isSpace_iff] at hs
      omega
    rw [e1, e2]
  · rfl

theorem splitWs_lowerList : ∀ (l : List Char),
    splitWs (lowerList l) = (splitWs l).map lowerList
  | [] => rfl
  | c :: rest => by
    have hmap : lowerList (c :: rest) = Char.toLower c :: lowerList rest := rfl
    by_cases hc : isSpace c = true
    · rw [hmap, splitWs_cons_space _ _ (by rw [isSpace_toLower]; exact hc),
        splitWs_cons_space _ _ hc]
      exact splitWs_lowerList rest
    · have hc' : isSpace c = false := by simpa using hc
      have hp : ((fun x => !isSpace x) ∘ Char.toLower) = (fun x : Char => !isSpace x) := by
        funext x
        simp [Function.comp, isSpace_toLower]
      have ht : (lowerList rest).takeWhile (fun x => !isSpace x) =
          lowerList (rest.takeWhile (fun x => !isSpace x)) := by
        unfold lowerList
        rw [List.takeWhile_map, hp]
      have hd : (lowerList rest).dropWhile (fun x => !isSpace x) =
          lowerList (rest.dropWhile (fun x => !isSpace x)) := by
        unfold lowerList
        rw [List.dropWhile_map, hp]
      rw [hmap, splitWs_cons_word _ _ (by rw [isSpace_toLower]; exact hc'),
        splitWs_cons_word _ _ hc', ht, hd,
        splitWs_lowerList (rest.dropWhile (fun x => !isSpace x))]
      rfl
termination_by l => l.length
decreasing_by
  simp only [List.length_cons]
  omega
  simp only [List.length_cons]
  have := (List.dropWhile_sublist (l := rest) (p := fun x => !isSpace x)).length_le
  omega

/-- C4 counterexample: the resolver's cache key (sender.py line 64) is
not lowercased, so the words Hello-comma and hello do not normalize to
the same cache key. -/
theorem cache_key_not_case_insensitive :
    cacheKey ("Hello,".toList) ≠ cacheKey ("hello".toList) := by
  decide

/-- C4 amended: the comparison key used for matching search results is
case-insensitive and punctuation-insensitive (two words whose stripped
forms agree up to letter case get the same match key, and in particular
Hello-comma and hello match identically), but the cache key itself
preserves letter case, so Hello-comma and hello produce different cache
keys. -/
theorem word_normalization_amended :
    (∀ w1 w2 : List Char, lowerList (stripPunct w1) = lowerList (stripPunct w2) →
      matchKey w1 = matchKey w2) ∧
    matchKey ("Hello,".toList) = matchKey ("hello".toList) ∧
    cacheKey ("Hello,".toList) ≠ cacheKey ("hello".toList) := by
  refine ⟨?_, by decide, by decide⟩
  intro w1 w2 h
  unfold matchKey cacheKey
  rw [← List.head?_map, ← List.head?_map, ← splitWs_lowerList, ← splitWs_lowerList, h]

/-- Witness for the amended C4 on a concrete pair: the words GO!
(uppercase, punctuated) and go receive the same match key. -/
theorem word_normalization_amended_witness :
    matchKey ("GO!".toList) = matchKey ("go".toList) :=
  word_normalization_amended.1 ("GO!".toList) ("go".toList) (by decide)

theorem encodeBytes_fail (matcher : List Char → Nat → Nat → Option Song) (i j : Nat) :
    ∀ (pairs : List (List Char)), (∃ b ∈ pairs, matcher b i j = none) →
    ∃ b ∈ pairs, matcher b i j = none ∧
      encodeBytes matcher i j pairs = .error (.ResolutionFailure b) := by
  intro pairs h
  induction pairs with
  | nil => simp at h
  | cons byte rest ih =>
    cases hm : matcher byte i j with
    | none =>
      exact ⟨byte, by simp, hm, by rw [encodeBytes, hm]⟩
    | some s =>
      have hr : ∃ b ∈ rest, matcher b i j = none := by
        rcases h with ⟨b, hb, hbn⟩
        rcases List.mem_cons.mp hb with rfl | hb'
        · rw [hm] at hbn; cases hbn
        · exact ⟨b, hb', hbn⟩
      rcases ih hr with ⟨b, hb, hbn, henc⟩
      exact ⟨b, List.mem_cons_of_mem _ hb, hbn, by rw [encodeBytes, hm, henc]; rfl⟩

theorem encodeBytes_ok (matcher : List Char → Nat → Nat → Option Song) (i j : Nat) :
    ∀ (pairs : List (List Char)), (∀ b ∈ pairs, (matcher b i j).isSome) →
    ∃ songs, encodeBytes matcher i j pairs = .ok songs ∧
      List.Forall₂ (fun b s => matcher b i j = some s) pairs songs := by
  intro pairs h
  induction pairs with
  | nil => exact ⟨[], rfl, List.Forall₂.nil⟩
  | cons byte rest ih =>
    cases hm : matcher byte i j with
    | none => have := h byte (by simp); rw [hm] at this; cases this
    | some s =>
      rcases ih (fun b hb => h b (List.mem_cons_of_mem _ hb)) with ⟨songs, henc, hall⟩
      exact ⟨s :: songs, by rw [encodeBytes, hm, henc]; rfl, List.Forall₂.cons hm hall⟩

theorem encodeWords_stateless_fail (r : List Char → Option (Option Song)) :
    ∀ (ws : List (List Char)) (cache : Cache),
    (∀ w ∈ ws, r (stripWsBoth w) ≠ none) →
    (∃ w ∈ ws, r (stripWsBoth w) = some none) →
    ∃ w ∈ ws, r (stripWsBoth w) = some none ∧
      ∃ c', encodeWords (fun w c => (r w).map (fun os => (os, c, 0))) ws cache =
        some (.error (.ResolutionFailure w), c') := by
  intro ws
  induction ws with
  | nil => intro cache _ h; simp at h
  | cons w rest ih =>
    intro cache hnc h
    cases hr : r (stripWsBoth w) with
    | none => exact absurd hr (hnc w (by simp))
    | some os =>
      cases os with
      | none =>
        refine ⟨w, by simp, hr, cache, ?_⟩
        rw [encodeWords]
        simp only [hr, Option.map_some']
      | some s =>
        have hrest : ∃ w' ∈ rest, r (stripWsBoth w') = some none := by
          rcases h with ⟨w', hw', hwn⟩
          rcases List.mem_cons.mp hw' with rfl | hw''
          · rw [hr] at hwn; cases hwn
          · exact ⟨w', hw'', hwn⟩
        rcases ih cache (fun x hx => hnc x (List.mem_cons_of_mem _ hx)) hrest with
          ⟨w', hw', hwn, c', henc⟩
        refine ⟨w', List.mem_cons_of_mem _ hw', hwn, c', ?_⟩
        rw [encodeWords]
        simp only [hr, Option.map_some', henc]

theorem encodeWords_stateless_ok (r : List Char → Option (Option Song)) :
    ∀ (ws : List (List Char)) (cache : Cache),
    (∀ w ∈ ws, ∃ s, r (stripWsBoth w) = some (some s)) →
    ∃ songs, encodeWords (fun w c => (r w).map (fun os => (os, c, 0))) ws cache =
        some (.ok songs, cache) ∧
      List.Forall₂ (fun w s => r (stripWsBoth w) = some (some s)) ws songs := by
  intro ws
  induction ws with
  | nil => intro cache _; exact ⟨[], rfl, List.Forall₂.nil⟩
  | cons w rest ih =>
    intro cache h
    rcases h w (by simp) with ⟨s, hs⟩
    rcases ih cache (fun x hx => h x (List.mem_cons_of_mem _ hx)) with ⟨songs, henc, hall⟩
    refine ⟨s :: songs, ?_, List.Forall₂.cons hs hall⟩
    rw [encodeWords]
    simp only [hs, Option.map_some', henc]

/-- C8: both encode operations are all-or-nothing: an unresolvable word
or byte makes the whole encode fail with a ResolutionFailure naming that
word or byte (no partial playlist is representable in the result), and
when every word or byte resolves, the encode returns exactly one Song
per fragment in source order. -/
theorem encode_all_or_nothing
    (r : List Char → Option (Option Song)) (message : List Char) (cache : Cache)
    (matcher : List Char → Nat → Nat → Option Song) (i j : Nat) :
    ((∀ w ∈ splitWs message, r (stripWsBoth w) ≠ none) →
      (∃ w ∈ splitWs message, r (stripWsBoth w) = some none) →
      ∃ w ∈ splitWs message, r (stripWsBoth w) = some none ∧
        ∃ c', get_first_word_encoding_songs (fun w c => (r w).map (fun os => (os, c, 0)))
          message cache = some (.error (.ResolutionFailure w), c')) ∧
    ((∀ w ∈ splitWs message, ∃ s, r (stripWsBoth w) = some (some s)) →
      ∃ songs, get_first_word_encoding_songs (fun w c => (r w).map (fun os => (os, c, 0)))
          message cache = some (.ok songs, cache) ∧
        List.Forall₂ (fun w s => r (stripWsBoth w) = some (some s)) (splitWs message) songs) ∧
    ((∃ b ∈ toPairs (hexOfBytes (utf8Encode message)), matcher b i j = none) →
      ∃ b ∈ toPairs (hexOfBytes (utf8Encode message)), matcher b i j = none ∧
        get_hex_encoding_songs matcher message i j = .error (.ResolutionFailure b)) ∧
    ((∀ b ∈ toPairs (hexOfBytes (utf8Encode message)), (matcher b i j).isSome) →
      ∃ songs, get_hex_encoding_songs matcher message i j = .ok songs ∧
        List.Forall₂ (fun b s => matcher b i j = some s)
          (toPairs (hexOfBytes (utf8Encode message))) songs) :=
  ⟨fun hnc h => encodeWords_stateless_fail r (splitWs message) cache hnc h,
   fun h => encodeWords_stateless_ok r (splitWs message) cache h,
   fun h => encodeBytes_fail matcher i j _ h,
   fun h => encodeBytes_ok matcher i j _ h⟩

/-- Witness for C8 at the message hi with concrete collaborators: an
always-failing resolver or matcher produces the naming failure, and an
always-succeeding one produces one Song per fragment. -/
theorem encode_all_or_nothing_witness :
    (∃ w ∈ splitWs ("hi".toList),
      (fun _ : List Char => (some none : Option (Option Song))) (stripWsBoth w) =
        some none ∧
      ∃ c', get_first_word_encoding_songs
          (fun w c => (((fun _ : List Char => (some none : Option (Option Song))) w).map
            (fun os => (os, c, 0)))) ("hi".toList) [] =
        some (.error (.ResolutionFailure w), c')) ∧
    (∃ songs, get_first_word_encoding_songs
        (fun w c => (((fun w' : List Char =>
          (some (some { track_id := [], name := w', spotify_url := [] }) :
            Option (Option Song))) w).map (fun os => (os, c, 0)))) ("hi".toList) [] =
        some (.ok songs, []) ∧
      List.Forall₂
        (fun w s => (fun w' : List Char =>
          (some (some { track_id := [], name := w', spotify_url := [] }) :
            Option (Option Song))) (stripWsBoth w) = some (some s))
        (splitWs ("hi".toList)) songs) ∧
    (∃ b ∈ toPairs (hexOfBytes (utf8Encode ("hi".toList))),
      (fun _ : List Char => fun _ _ : Nat => (none : Option Song)) b 0 1 = none ∧
      get_hex_encoding_songs (fun _ _ _ => none) ("hi".toList) 0 1 =
        .error (.ResolutionFailure b)) ∧
    (∃ songs, get_hex_encoding_songs
        (fun b _ _ => some { track_id := b, name := [], spotify_url := [] })
        ("hi".toList) 0 1 = .ok songs ∧
      List.Forall₂
        (fun b s => (fun b' : List Char => fun _ _ : Nat =>
          (some { track_id := b', name := [], spotify_url := [] } : Option Song)) b 0 1 =
            some s)
        (toPairs (hexOfBytes (utf8Encode ("hi".toList)))) songs) :=
  ⟨(encode_all_or_nothing (fun _ => some none) ("hi".toList) []
      (fun _ _ _ => none) 0 1).1
      (fun w _ => by simp) ⟨"hi".toList, by decide, rfl⟩,
   (encode_all_or_nothing
      (fun w' => some (some { track_id := [], name := w', spotify_url := [] }))
      ("hi".toList) [] (fun _ _ _ => none) 0 1).2.1
      (fun w _ => ⟨{ track_id := [], name := stripWsBoth w, spotify_url := [] }, rfl⟩),
   (encode_all_or_nothing (fun _ => some none) ("hi".toList) []
      (fun _ _ _ => none) 0 1).2.2.1
      ⟨"68".toList, by decide, rfl⟩,
   (encode_all_or_nothing (fun _ => some none) ("hi".toList) []
      (fun b _ _ => some { track_id := b, name := [], spotify_url := [] }) 0 1).2.2.2
      (fun b _ => rfl)⟩

theorem stripPunct_all_punct (word : List Char) (h : ∀ c ∈ word, isPunct c = true) :
    stripPunct word = [] := by
  unfold stripPunct stripBy
  rw [List.dropWhile_eq_nil_iff.mpr (fun x hx => h x hx)]
  rfl

theorem get_song_punct_crash (search : List Char → Option (List RawTrack))
    (choose : List Song → Option Song) (word : List Char) (cache : Cache)
    (h : ∀ c ∈ word, isPunct c = true) :
    get_song_from_first_word search choose word cache = none := by
  have hkey : cacheKey word = none := by
    unfold cacheKey
    rw [stripPunct_all_punct word h]
    rfl
  unfold get_song_from_first_word
  rw [hkey]

/-- C10: the resolver's word normalization step is not total: on any word
made solely of characters of the punctuation set, `get_song_from_first_word`
crashes with an IndexError (modelled as `none`) before consulting cache or
search, for every collaborator, choice function and cache state; hence
FirstWordScheme encoding of the message consisting of the single token
three-dots crashes instead of failing with a ResolutionFailure. -/
theorem first_word_encoding_crashes_on_punct_token
    (search : List Char → Option (List RawTrack)) (choose : List Song → Option Song)
    (cache : Cache) (word : List Char) (h : ∀ c ∈ word, isPunct c = true) :
    get_song_from_first_word search choose word cache = none ∧
    get_first_word_encoding_songs (get_song_from_first_word search choose)
      ("...".toList) cache = none := by
  refine ⟨get_song_punct_crash search choose word cache h, ?_⟩
  have hw : splitWs ("...".toList) = [['.', '.', '.']] := by decide
  unfold get_first_word_encoding_songs
  rw [hw, encodeWords]
  have hsw : stripWsBoth ['.', '.', '.'] = ['.', '.', '.'] := by decide
  rw [hsw, get_song_punct_crash search choose ['.', '.', '.'] cache (by decide)]

/-- Witness for C10 with concrete collaborators: an empty search and a
head-picking choice still crash on the punctuation-only word. -/
theorem first_word_encoding_crashes_on_punct_token_witness :
    get_song_from_first_word (fun _ => some []) (fun l => l.head?) ("!?.".toList) [] =
      none ∧
    get_first_word_encoding_songs
      (get_song_from_first_word (fun _ => some []) (fun l => l.head?))
      ("...".toList) [] = none :=
  first_word_encoding_crashes_on_punct_token (fun _ => some []) (fun l => l.head?)
    [] ("!?.".toList) (by decide)

/-- C9: resolving a word from an empty cache, when it succeeds, issues
exactly one search-collaborator call, stores the full filtered candidate
list under the normalized word, and a second resolution of the same word
is answered from the cache: it returns the same Song, leaves the cache
unchanged and issues zero search calls. -/
theorem resolve_twice_one_search_call
    (search : List Char → Option (List RawTrack)) (choose : List Song → Option Song)
    (word0 : List Char) (s : Song) (c1 : Cache) (n1 : Nat)
    (h : get_song_from_first_word search choose word0 [] = some (some s, c1, n1)) :
    n1 = 1 ∧
    ∃ word items cand, cacheKey word0 = some word ∧
      search (quoteWord word) = some items ∧
      filterMatches word items = some cand ∧
      c1 = [(word, cand)] ∧
      get_song_from_first_word search choose word0 c1 = some (some s, c1, 0) := by
  unfold get_song_from_first_word at h
  cases hk : cacheKey word0 with
  | none => simp only [hk] at h; exact Option.noConfusion h
  | some word =>
    have hlc : lookupCache [] word = none := rfl
    simp only [hk, hlc] at h
    cases hs : search (quoteWord word) with
    | none => simp only [hs] at h; simp at h
    | some items =>
      simp only [hs] at h
      cases hf : filterMatches word items with
      | none => simp only [hf] at h; exact Option.noConfusion h
      | some cand =>
        simp only [hf] at h
        cases cand with
        | nil => simp at h
        | cons m ms =>
          cases hc : choose (m :: ms) with
          | none => simp only [hc] at h; exact Option.noConfusion h
          | some s' =>
            simp only [hc, Option.some.injEq, Prod.mk.injEq] at h
            obtain ⟨hs', hcache, hn⟩ := h
            subst hs'
            subst hcache
            refine ⟨hn.symm, word, items, m :: ms, rfl, hs, hf, rfl, ?_⟩
            have hlook : lookupCache (insertCache [] word (m :: ms)) word =
                some (m :: ms) := by
              rw [show insertCache [] word (m :: ms) = [(word, m :: ms)] from rfl,
                lookupCache, if_pos rfl]
            unfold get_song_from_first_word
            simp only [hk, hlook, hc]

/-- Witness for C9: a search collaborator returning one matching track for
the word hello; the first resolution searches once and caches the full
candidate list, the second resolution is served from the cache. -/
theorem resolve_twice_one_search_call_witness :
    (1 : Nat) = 1 ∧
    ∃ word items cand, cacheKey ("hello".toList) = some word ∧
      (some [({ id := "tid".toList, name := "hello world".toList, url := "u".toList } : RawTrack)] : Option (List RawTrack)) = some items ∧
      filterMatches word items = some cand ∧
      ([(("hello".toList : List Char),
        [({ track_id := "tid".toList, name := "hello world".toList, spotify_url := "u".toList } : Song)])] : Cache) = [(word, cand)] ∧
      get_song_from_first_word
        (fun _ => some [({ id := "tid".toList, name := "hello world".toList, url := "u".toList } : RawTrack)])
        (fun l => l.head?) ("hello".toList)
        [(("hello".toList : List Char),
          [({ track_id := "tid".toList, name := "hello world".toList, spotify_url := "u".toList } : Song)])] =
        some (some ({ track_id := "tid".toList, name := "hello world".toList, spotify_url := "u".toList } : Song),
          [(("hello".toList : List Char),
            [({ track_id := "tid".toList, name := "hello world".toList, spotify_url := "u".toList } : Song)])], 0) :=
  resolve_twice_one_search_call
    (fun _ => some [({ id := "tid".toList, name := "hello world".toList, url := "u".toList } : RawTrack)])
    (fun l => l.head?) ("hello".toList)
    { track_id := "tid".toList, name := "hello world".toList, spotify_url := "u".toList }
    [(("hello".toList : List Char),
      [({ track_id := "tid".toList, name := "hello world".toList, spotify_url := "u".toList } : Song)])] 1 (by decide)

theorem dropWhile_eq_self_of (p : Char → Bool) (l : List Char)
    (h : ∀ c ∈ l, p c = false) : l.dropWhile p = l := by
  cases l with
  | nil => rfl
  | cons c rest =>
    rw [List.dropWhile_cons, if_neg (by simp [h c (by simp)])]

theorem stripBy_eq_self (p : Char → Bool) (l : List Char)
    (h : ∀ c ∈ l, p c = false) : stripBy p l = l := by
  unfold stripBy
  rw [dropWhile_eq_self_of p l h,
    dropWhile_eq_self_of p l.reverse (fun c hc => h c (List.mem_reverse.mp hc)),
    List.reverse_reverse]

theorem mem_splitWsF : ∀ (fuel : Nat) (l : List Char) (w : List Char),
    w ∈ splitWsF fuel l → w ≠ [] ∧ ∀ c ∈ w, isSpace c = false
  | _, [], w => by rw [splitWsF]; intro h; cases h
  | 0, _ :: _, w => by rw [splitWsF]; intro h; cases h
  | fuel + 1, c :: rest, w => by
    rw [splitWsF]
    by_cases hc : isSpace c = true
    · rw [if_pos hc]; exact mem_splitWsF fuel rest w
    · rw [if_neg (by simp [hc])]
      intro h
      rcases List.mem_cons.mp h with rfl | h'
      · refine ⟨by simp, ?_⟩
        intro x hx
        rcases List.mem_cons.mp hx with rfl | hx'
        · simpa using hc
        · have := List.mem_takeWhile_imp hx'
          simpa using this
      · exact mem_splitWsF fuel (rest.dropWhile (fun x => !isSpace x)) w h'

theorem mem_splitWs (l w : List Char) (h : w ∈ splitWs l) :
    w ≠ [] ∧ ∀ c ∈ w, isSpace c = false :=
  mem_splitWsF l.length l w h

theorem encodeWords_roundtrip
    (resolver : List Char → Cache → Option (Option Song × Cache × Nat)) :
    ∀ (ws : List (List Char)) (cache : Cache),
    (∀ w ∈ ws, w ≠ [] ∧ ∀ c ∈ w, isSpace c = false) →
    (∀ w ∈ ws, ∀ c ∈ w, isPunct c = false) →
    (∀ w ∈ ws, ∀ c, ∃ s c' n, resolver w c = some (some s, c', n) ∧
      leadingWord s.name = some w) →
    ∃ songs c', encodeWords resolver ws cache = some (.ok songs, c') ∧
      firstWords songs = some ws := by
  intro ws
  induction ws with
  | nil => intro cache _ _ _; exact ⟨[], cache, rfl, rfl⟩
  | cons w rest ih =>
    intro cache hws hpf hres
    have hw := hws w (by simp)
    have hsw : stripWsBoth w = w := stripBy_eq_self _ _ hw.2
    rcases hres w (by simp) cache with ⟨s, c', n, hr, hlw⟩
    rcases ih c' (fun x hx => hws x (List.mem_cons_of_mem _ hx))
      (fun x hx => hpf x (List.mem_cons_of_mem _ hx))
      (fun x hx => hres x (List.mem_cons_of_mem _ hx)) with ⟨songs, c'', henc, hfw⟩
    refine ⟨s :: songs, c'', ?_, ?_⟩
    · rw [encodeWords, hsw, hr]
      simp only [henc]
    · have hname_ne : s.name ≠ [] := by
        intro hnil
        rw [hnil] at hlw
        cases hlw
      have hsp : stripPunct w = w := stripBy_eq_self _ _ (hpf w (by simp))
      rw [firstWords, if_neg hname_ne, hlw, hfw]
      simp [hsp, hw.1]

/-- C2: for every non-empty message of whitespace-separated
punctuation-free words, FirstWordScheme decoding of the Song list produced
by FirstWordScheme encoding reproduces the message's word sequence,
whenever the resolver returns for each word a Song whose name's leading
word equals the requested word. -/
theorem first_word_roundtrip (message : List Char)
    (resolver : List Char → Cache → Option (Option Song × Cache × Nat)) (cache : Cache)
    (hmsg : message ≠ [])
    (hpf : ∀ w ∈ splitWs message, ∀ c ∈ w, isPunct c = false)
    (hres : ∀ w ∈ splitWs message, ∀ c, ∃ s c' n, resolver w c = some (some s, c', n) ∧
      leadingWord s.name = some w) :
    ∃ songs c', get_first_word_encoding_songs resolver message cache =
        some (.ok songs, c') ∧
      firstWords songs = some (splitWs message) ∧
      decode_first_word_encoding songs = some (joinWords (splitWs message)) := by
  rcases encodeWords_roundtrip resolver (splitWs message) cache
    (fun w hw => mem_splitWs message w hw) hpf hres with ⟨songs, c', henc, hfw⟩
  exact ⟨songs, c', henc, hfw, by unfold decode_first_word_encoding; rw [hfw]; rfl⟩

/-- Witness for C2: the spec example go now, with a resolver that returns
a track named after the requested word. -/
theorem first_word_roundtrip_witness :
    ∃ songs c', get_first_word_encoding_songs
        (fun w c => some (some { track_id := [], name := w, spotify_url := [] }, c, 0))
        ("go now".toList) [] = some (.ok songs, c') ∧
      firstWords songs = some (splitWs ("go now".toList)) ∧
      decode_first_word_encoding songs =
        some (joinWords (splitWs ("go now".toList))) := by
  refine first_word_roundtrip ("go now".toList)
    (fun w c => some (some { track_id := [], name := w, spotify_url := [] }, c, 0)) []
    (by decide) (by decide) ?_
  intro w hw c
  refine ⟨{ track_id := [], name := w, spotify_url := [] }, c, 0, rfl, ?_⟩
  have hws : splitWs ("go now".toList) = [['g','o'], ['n','o','w']] := by decide
  rw [hws] at hw
  rcases List.mem_cons.mp hw with rfl | hw'
  · decide
  · rcases List.mem_cons.mp hw' with rfl | hw''
    · decide
    · cases hw''

theorem utf8Encode_lt (m : List Char) : ∀ b ∈ utf8Encode m, b < 256 := by
  intro b hb
  unfold utf8Encode at hb
  rw [List.mem_flatten] at hb
  rcases hb with ⟨l, hl, hbl⟩
  rcases List.mem_map.mp hl with ⟨c, _, rfl⟩
  exact utf8EncodeChar_lt c b hbl

theorem pair_eq_two (p : List Char) (hlen : p.length = 2) : ∃ a b, p = [a, b] := by
  cases p with
  | nil => simp at hlen
  | cons a t =>
    cases t with
    | nil => simp at hlen
    | cons b t2 =>
      cases t2 with
      | nil => exact ⟨a, b, rfl⟩
      | cons x t3 => simp at hlen

theorem forall2_strengthen (matcher : List Char → Nat → Nat → Option Song) (i j : Nat) :
    ∀ (pairs : List (List Char)) (songs : List Song),
    List.Forall₂ (fun b s => matcher b i j = some s) pairs songs →
    (∀ b ∈ pairs, ∃ s, matcher b i j = some s ∧ s.track_id.get? i = b.get? 0 ∧
      s.track_id.get? j = b.get? 1) →
    List.Forall₂ (fun b s => s.track_id.get? i = b.get? 0 ∧
      s.track_id.get? j = b.get? 1) pairs songs
  | _, _, List.Forall₂.nil, _ => List.Forall₂.nil
  | b :: pairs, s :: songs, List.Forall₂.cons hb ht, hm => by
    rcases hm b (by simp) with ⟨s', hs', hp⟩
    rw [hb] at hs'
    injection hs' with he
    subst he
    exact List.Forall₂.cons hp
      (forall2_strengthen matcher i j pairs songs ht
        (fun x hx => hm x (List.mem_cons_of_mem _ hx)))

theorem map_extract_eq_pairs (i j : Nat) :
    ∀ (pairs : List (List Char)) (songs : List Song),
    List.Forall₂ (fun b s => s.track_id.get? i = b.get? 0 ∧
      s.track_id.get? j = b.get? 1) pairs songs →
    (∀ p ∈ pairs, p.length = 2) →
    songs.map (fun s => (s.track_id.get? i).toList ++ (s.track_id.get? j).toList) = pairs
  | _, _, List.Forall₂.nil, _ => rfl
  | p :: pairs, s :: songs, List.Forall₂.cons hp ht, hl => by
    obtain ⟨a, b, rfl⟩ := pair_eq_two p (hl p (by simp))
    simp only [List.map_cons]
    rw [hp.1, hp.2]
    show [a, b] :: songs.map _ = [a, b] :: pairs
    rw [map_extract_eq_pairs i j pairs songs ht
      (fun q hq => hl q (List.mem_cons_of_mem _ hq))]

theorem songs_track_long (i j : Nat) :
    ∀ (pairs : List (List Char)) (songs : List Song),
    List.Forall₂ (fun b s => s.track_id.get? i = b.get? 0 ∧
      s.track_id.get? j = b.get? 1) pairs songs →
    (∀ p ∈ pairs, p.length = 2) →
    ∀ s ∈ songs, max i j < s.track_id.length
  | _, _, List.Forall₂.nil, _ => by intro s hs; cases hs
  | p :: pairs, s :: songs, List.Forall₂.cons hp ht, hl => by
    intro x hx
    rcases List.mem_cons.mp hx with rfl | hx'
    · obtain ⟨a, b, rfl⟩ := pair_eq_two p (hl p (by simp))
      have hia : x.track_id.get? i = some a := hp.1
      have hjb : x.track_id.get? j = some b := hp.2
      have hi : i < x.track_id.length := by
        by_contra hcon
        rw [List.get?_eq_none.mpr (Nat.le_of_not_lt hcon)] at hia
        cases hia
      have hj : j < x.track_id.length := by
        by_contra hcon
        rw [List.get?_eq_none.mpr (Nat.le_of_not_lt hcon)] at hjb
        cases hjb
      omega
    · exact songs_track_long i j pairs songs ht
        (fun q hq => hl q (List.mem_cons_of_mem _ hq)) x hx'

/-- C1: for every message and all indices in the valid range, decoding
the song list produced by HexScheme encoding yields the message again,
whenever the matcher returns for each hex byte a Song whose track_id has
the byte's first character at `first_index` and second character at
`second_index`. -/
theorem hex_roundtrip (message : List Char) (i j : Nat)
    (matcher : List Char → Nat → Nat → Option Song)
    (hi : i ≤ 21) (hj : j ≤ 21)
    (hm : ∀ byte ∈ toPairs (hexOfBytes (utf8Encode message)), ∃ s,
      matcher byte i j = some s ∧ s.track_id.get? i = byte.get? 0 ∧
      s.track_id.get? j = byte.get? 1) :
    ∃ songs, get_hex_encoding_songs matcher message i j = .ok songs ∧
      decode_hex_encoding songs i j = .ok message := by
  have hm' : ∀ b ∈ toPairs (hexOfBytes (utf8Encode message)), (matcher b i j).isSome := by
    intro b hb
    rcases hm b hb with ⟨s, hs, _⟩
    simp [hs]
  rcases encodeBytes_ok matcher i j _ hm' with ⟨songs, henc, hall⟩
  have hall' := forall2_strengthen matcher i j _ songs hall hm
  have hple : ∀ p ∈ toPairs (hexOfBytes (utf8Encode message)), p.length = 2 :=
    toPairs_length_two _ (by rw [hexOfBytes_length]; omega)
  have hlen : ∀ s ∈ songs, max i j < s.track_id.length :=
    songs_track_long i j _ songs hall' hple
  have hext : extractedHex songs i j = hexOfBytes (utf8Encode message) := by
    unfold extractedHex
    rw [map_extract_eq_pairs i j _ songs hall' hple, flatten_toPairs]
  refine ⟨songs, henc, ?_⟩
  rw [decode_hex_of_ok songs i j _ (hexOfSongs_ok songs i j hlen), hext]
  exact parsePayload_ok _ _ _
    (fromHex?_hexOfBytes (utf8Encode message) (utf8Encode_lt message))
    (utf8Decode_utf8Encode message)

/-- Witness for C1: the message Hi with indices 0 and 1 and a matcher
whose returned track identifier is the byte itself; encoding then
decoding returns Hi. -/
theorem hex_roundtrip_witness :
    ∃ songs, get_hex_encoding_songs
        (fun b _ _ => some { track_id := b, name := [], spotify_url := [] })
        ("Hi".toList) 0 1 = .ok songs ∧
      decode_hex_encoding songs 0 1 = .ok ("Hi".toList) :=
  hex_roundtrip ("Hi".toList) 0 1
    (fun b _ _ => some { track_id := b, name := [], spotify_url := [] })
    (by omega) (by omega)
    (fun byte _ => ⟨{ track_id := byte, name := [], spotify_url := [] }, rfl, rfl, rfl⟩)
